import Mathlib

/-!
Verification development for the `darpy` / `marc_analysis` repository.

The first half embeds `marc_analysis/experiment.py`: the `Case` namedtuple,
the `Experiment` class (its `__init__`, `_validate_data`, `all_cases`,
`all_case_vals`, `case_path`) and the `SingleCaseExperiment` subclass.
Python's `itertools.product` is embedded as `itProduct`, the `OrderedDict`
holding the case data as an association list with in-place update, and the
class-level `setattr` side channel as an explicit `ClassAttrs` state.
The filesystem is a map from path strings to an optional file kind.

The second half embeds `darpy/utilities.py`: `area_grid` and
`latitude_weights`, over the real numbers.
-/

namespace Darpy

/-- `Case = namedtuple('case', ['shortname', 'longname', 'vals'])`. -/
structure Case where
  shortname : String
  longname : String
  vals : List String
deriving DecidableEq, Repr

/-- The namedtuple constructor: it performs no validation whatsoever. -/
def Case.make (s l : String) (v : List String) : Case := ⟨s, l, v⟩

/-- `itertools.product` applied to a list of value lists: standard
Cartesian-product enumeration, the rightmost (last) list cycling fastest. -/
def itProduct {α : Type} : List (List α) → List (List α)
  | [] => [[]]
  | xs :: rest => xs.flatMap (fun x => (itProduct rest).map (fun t => x :: t))

/-- What a path names on disk. -/
inductive FileKind where
  | file
  | dir
deriving DecidableEq, Repr

/-- A filesystem: each path string either names a file or directory, or nothing. -/
abbrev FS : Type := String → Option FileKind

/-- `os.path.exists`. -/
def fsExists (fs : FS) (p : String) : Bool := (fs p).isSome

/-- The empty filesystem. -/
def fsEmpty : FS := fun _ => none

/-- `os.path.join(root, *bits)` for relative components. -/
def joinPath (root : String) (bits : List String) : String :=
  bits.foldl (fun acc b => acc ++ "/" ++ b) root

/-- One insertion into the `OrderedDict` `self._case_data`: an existing key is
updated in place (keeping its position), a new key is appended. -/
def odInsert (d : List (String × Case)) (k : String) (v : Case) : List (String × Case) :=
  if d.any (fun p => p.1 == k) then
    d.map (fun p => if p.1 == k then (k, v) else p)
  else
    d ++ [(k, v)]

/-- `self._case_data`: the `OrderedDict` built by iterating over `cases` and
writing `self._case_data[case.shortname] = case`. -/
def buildCaseData (cases : List Case) : List (String × Case) :=
  cases.foldl (fun d c => odInsert d c.shortname c) []

/-- The class-attribute dictionary of the `Experiment` type: target of the
`setattr(self.__class__, case, vals)` calls in `__init__`. -/
abbrev ClassAttrs : Type := List (String × List String)

/-- `setattr` on a class dictionary: update in place or append. -/
def setAttr (a : ClassAttrs) (k : String) (v : List String) : ClassAttrs :=
  if a.any (fun p => p.1 == k) then
    a.map (fun p => if p.1 == k then (k, v) else p)
  else
    a ++ [(k, v)]

/-- `getattr` on the class dictionary. -/
def getAttr (a : ClassAttrs) (k : String) : Option (List String) :=
  (a.find? (fun p => p.1 == k)).map (fun p => p.2)

/-- The ways `Experiment.__init__` can raise. `indexError` is
`self._cases[-1]` on an empty case list; `missingDir` is the bare
`assert os.path.exists(data_dir)`; `dataLayout` is the `AssertionError`
re-raised by `_validate_data` with the offending path in its message. -/
inductive InitError where
  | indexError
  | missingDir
  | dataLayout (path : String)
deriving DecidableEq, Repr

/-- The state of a constructed `Experiment` instance. -/
structure Experiment where
  name : String
  caseData : List (String × Case)
  dataDir : String
  namingCase : String
  fullPath : Bool
deriving DecidableEq, Repr

/-- `self._cases`: the ordered keys of the case dictionary. -/
def Experiment.cases (e : Experiment) : List String :=
  e.caseData.map (fun p => p.1)

/-- `all_case_vals`: the list of the value lists, in declaration order. -/
def Experiment.all_case_vals (e : Experiment) : List (List String) :=
  e.caseData.map (fun p => p.2.vals)

/-- `all_cases`: `product(*self.all_case_vals())`. -/
def Experiment.all_cases (e : Experiment) : List (List String) :=
  itProduct e.all_case_vals

/-- `case_path`: `os.path.join(self.data_dir, *case_bits)`. -/
def Experiment.case_path (e : Experiment) (bits : List String) : String :=
  joinPath e.dataDir bits

/-- `_validate_data`: walk the combinations in enumeration order and raise on
the first path that does not exist; only `os.path.exists` is consulted. -/
def validateData (fs : FS) (root : String) : List (List String) → Except InitError Unit
  | [] => Except.ok ()
  | bits :: rest =>
    if fsExists fs (joinPath root bits) then validateData fs root rest
    else Except.error (InitError.dataLayout (joinPath root bits))

/-- `Experiment.__init__`: build the case dictionary, inject the value lists
into the class attributes, resolve the naming case (last declared when not
given), then optionally assert the data root exists and validate the layout. -/
def experimentInit (name : String) (cases : List Case) (dataDir : String)
    (fullPath : Bool) (namingCase : String) (validate : Bool)
    (fs : FS) (attrs : ClassAttrs) : Except InitError (Experiment × ClassAttrs) :=
  let caseData := buildCaseData cases
  let attrs2 := caseData.foldl (fun a p => setAttr a p.1 p.2.vals) attrs
  match (if namingCase == "" then (caseData.map (fun p => p.1)).getLast? else some namingCase) with
  | none => Except.error InitError.indexError
  | some nc =>
    let e : Experiment := ⟨name, caseData, dataDir, nc, fullPath⟩
    if validate then
      (if fsExists fs dataDir then
        match validateData fs dataDir (itProduct (caseData.map (fun p => p.2.vals))) with
        | Except.ok _ => Except.ok (e, attrs2)
        | Except.error err => Except.error err
      else Except.error InitError.missingDir)
    else Except.ok (e, attrs2)

/-- `SingleCaseExperiment.__init__`: synthesize the one-element case list and
call `Experiment.__init__` with `validate_data=False`. -/
def singleCaseInit (name : String) (dataDir : String) (fullPath : Bool)
    (fs : FS) (attrs : ClassAttrs) : Except InitError (Experiment × ClassAttrs) :=
  experimentInit name [Case.make name name [name]] dataDir fullPath "" false fs attrs

/-- The overridden `SingleCaseExperiment.case_path`: ignores its arguments. -/
def singleCase_case_path (e : Experiment) (_args : List String) : String :=
  e.dataDir

/-- Pick, for every value list, the entry at the corresponding index of the
multi-index; `none` when the shapes disagree or an index is out of range. -/
def selectOpt {α : Type} : List (List α) → List Nat → Option (List α)
  | [], [] => some []
  | xs :: rest, i :: is =>
    match xs[i]?, selectOpt rest is with
    | some x, some t => some (x :: t)
    | _, _ => none
  | [], _ :: _ => none
  | _ :: _, [] => none

/-- The mixed-radix rank of a multi-index: the index into the last list has
stride one, every earlier index strides by the product of the later lengths.
This rank is exactly the position in standard Cartesian-product enumeration
order, the one where the last list's values cycle fastest. -/
def mixedIdx {α : Type} : List (List α) → List Nat → Nat
  | _ :: rest, i :: is => i * ((rest.map List.length).prod) + mixedIdx rest is
  | _, _ => 0

theorem itProduct_length {α : Type} (L : List (List α)) :
    (itProduct L).length = (L.map List.length).prod := by
  induction L with
  | nil => rfl
  | cons xs rest ih =>
    simp [itProduct, List.length_flatMap, Function.comp_def, ih, List.map_const]

theorem flatMap_getElem?_uniform {α β : Type} (B : Nat) (f : α → List β)
    (hf : ∀ x, (f x).length = B) :
    ∀ (xs : List α) (i k : Nat) (x : α), k < B → xs[i]? = some x →
      (xs.flatMap f)[i * B + k]? = (f x)[k]? := by
  intro xs
  induction xs with
  | nil => intro i k x _ h; simp at h
  | cons y ys ih =>
    intro i k x hk h
    rw [List.flatMap_cons]
    cases i with
    | zero =>
      rw [List.getElem?_cons_zero] at h
      have hx : y = x := by injection h
      subst hx
      have hk2 : 0 * B + k < (f y).length := by rw [hf]; omega
      rw [List.getElem?_append_left hk2]
      simp
    | succ i =>
      rw [List.getElem?_cons_succ] at h
      have harith : (i + 1) * B + k = (f y).length + (i * B + k) := by
        rw [hf]; ring
      rw [harith, List.getElem?_append_right (Nat.le_add_right _ _),
        Nat.add_sub_cancel_left]
      exact ih i k x hk h

theorem mixedIdx_lt {α : Type} :
    ∀ (L : List (List α)) (is : List Nat) (t : List α),
      selectOpt L is = some t → mixedIdx L is < (L.map List.length).prod := by
  intro L
  induction L with
  | nil =>
    intro is t h
    cases is with
    | nil => simp [mixedIdx]
    | cons i is => simp [selectOpt] at h
  | cons xs rest ih =>
    intro is t h
    cases is with
    | nil => simp [selectOpt] at h
    | cons i is =>
      cases hx : xs[i]? with
      | none => simp [selectOpt, hx] at h
      | some x =>
        cases hs : selectOpt rest is with
        | none => simp [selectOpt, hx, hs] at h
        | some t2 =>
          have h1 : i + 1 ≤ xs.length := (List.getElem?_eq_some_iff.mp hx).1
          have h2 := ih is t2 hs
          simp only [mixedIdx, List.map_cons, List.prod_cons]
          have h3 : i * (List.map List.length rest).prod + mixedIdx rest is <
              (i + 1) * (List.map List.length rest).prod := by
            rw [Nat.succ_mul]; omega
          exact lt_of_lt_of_le h3 (Nat.mul_le_mul_right _ h1)

theorem itProduct_getElem? {α : Type} :
    ∀ (L : List (List α)) (is : List Nat) (t : List α),
      selectOpt L is = some t → (itProduct L)[mixedIdx L is]? = some t := by
  intro L
  induction L with
  | nil =>
    intro is t h
    cases is with
    | nil =>
      simp only [selectOpt, Option.some.injEq] at h
      subst h; rfl
    | cons i is => simp [selectOpt] at h
  | cons xs rest ih =>
    intro is t h
    cases is with
    | nil => simp [selectOpt] at h
    | cons i is =>
      cases hx : xs[i]? with
      | none => simp [selectOpt, hx] at h
      | some x =>
        cases hs : selectOpt rest is with
        | none => simp [selectOpt, hx, hs] at h
        | some t2 =>
          have ht : t = x :: t2 := by
            simp only [selectOpt, hx, hs, Option.some.injEq] at h
            exact h.symm
          subst ht
          have hm : mixedIdx rest is < (itProduct rest).length := by
            rw [itProduct_length]; exact mixedIdx_lt rest is t2 hs
          have hstride : mixedIdx (xs :: rest) (i :: is) =
              i * (itProduct rest).length + mixedIdx rest is := by
            simp [mixedIdx, itProduct_length]
          rw [hstride]
          show (xs.flatMap (fun x => (itProduct rest).map (fun u => x :: u)))[
              i * (itProduct rest).length + mixedIdx rest is]? = _
          rw [flatMap_getElem?_uniform ((itProduct rest).length)
            (fun z => (itProduct rest).map (fun u => z :: u))
            (fun z => by simp) xs i (mixedIdx rest is) x hm hx]
          rw [List.getElem?_map, ih is t2 hs]
          rfl

/-- A concrete two-factor experiment used to instantiate the claim theorems. -/
def expEx : Experiment :=
  ⟨"exp",
    [("aer", ⟨"aer", "aerosol emissions", ["F2000", "F1850"]⟩),
     ("act", ⟨"act", "activation scheme", ["comp", "min_smax"]⟩)],
    "data", "act", false⟩

/-- C1: for every experiment design, `all_cases()` (= `all_combinations()`)
enumerates exactly the Cartesian product of the cases' value lists in
case-declaration order: its length is the product of the value-list lengths,
and the element at the mixed-radix rank of a valid multi-index is exactly the
tuple selected by that multi-index — i.e. standard Cartesian-product order
with the last-declared case's values cycling fastest. -/
theorem c1_all_combinations (e : Experiment) :
    (e.all_cases).length = ((e.all_case_vals).map List.length).prod ∧
    ∀ (is : List Nat) (t : List String), selectOpt e.all_case_vals is = some t →
      (e.all_cases)[mixedIdx e.all_case_vals is]? = some t :=
  ⟨itProduct_length _, fun is t h => itProduct_getElem? _ is t h⟩

/-- Witness for C1 at a concrete two-factor design: 2 · 2 combinations, and
the multi-index (1, 0) sits at rank 1·2 + 0 = 2, so the first factor varies
slowest and the second fastest. -/
theorem c1_witness :
    selectOpt expEx.all_case_vals [1, 0] = some ["F1850", "comp"] ∧
    (expEx.all_cases).length = ((expEx.all_case_vals).map List.length).prod ∧
    (expEx.all_cases)[mixedIdx expEx.all_case_vals [1, 0]]? = some ["F1850", "comp"] :=
  ⟨by decide, (c1_all_combinations expEx).1,
    (c1_all_combinations expEx).2 [1, 0] ["F1850", "comp"] (by decide)⟩

theorem validateData_eq_find? (fs : FS) (root : String) (combos : List (List String)) :
    validateData fs root combos =
      match combos.find? (fun bits => !(fsExists fs (joinPath root bits))) with
      | some bits => Except.error (InitError.dataLayout (joinPath root bits))
      | none => Except.ok () := by
  induction combos with
  | nil => rfl
  | cons b rest ih =>
    by_cases h : fsExists fs (joinPath root b)
    · rw [validateData, if_pos h, ih]
      simp [List.find?_cons, h]
    · rw [validateData, if_neg h]
      simp only [Bool.not_eq_true] at h
      simp [List.find?_cons, h]

/-- A filesystem with one data root and exactly one of four combination paths. -/
def fsW : FS := fun p =>
  if p == "r" || p == "r/F2000/comp" then some FileKind.dir else none

/-- A filesystem where the only combination path is a regular file. -/
def fsFile : FS := fun p =>
  if p == "root/a" then some FileKind.file else none

/-- The two-factor case list used in the validation witnesses. -/
def casesW : List Case :=
  [Case.make "aer" "aerosol emissions" ["F2000", "F1850"],
   Case.make "act" "activation scheme" ["comp", "min_smax"]]

/-- C2 counterexample: the claim says validation asserts each combination path
exists *and is a directory*; the code only calls `os.path.exists`. On a layout
whose single combination path is a regular file, validation succeeds. -/
theorem c2_counterexample :
    validateData fsFile "root" [["a"]] = Except.ok () ∧
    fsFile "root/a" = some FileKind.file ∧ some FileKind.file ≠ some FileKind.dir :=
  ⟨rfl, rfl, by decide⟩

/-- C2 (amended): validation checks only `os.path.exists` on each combination
path, in enumeration order (first-declared case slowest), stops at the first
missing path, and the raised error names exactly that first missing path; at
the `__init__` level, when validation is requested and the root exists, a
first missing combination path yields that error. -/
theorem c2_first_missing :
    (∀ (fs : FS) (root : String) (combos : List (List String)),
      validateData fs root combos =
        match combos.find? (fun bits => !(fsExists fs (joinPath root bits))) with
        | some bits => Except.error (InitError.dataLayout (joinPath root bits))
        | none => Except.ok ()) ∧
    (∀ (fs : FS) (name : String) (cases : List Case) (root : String) (fp : Bool)
      (nc : String) (attrs : ClassAttrs) (bits : List String),
      buildCaseData cases ≠ [] → fsExists fs root = true →
      (itProduct ((buildCaseData cases).map (fun p => p.2.vals))).find?
          (fun b => !(fsExists fs (joinPath root b))) = some bits →
      experimentInit name cases root fp nc true fs attrs =
        Except.error (InitError.dataLayout (joinPath root bits))) := by
  refine ⟨validateData_eq_find?, ?_⟩
  intro fs name cases root fp nc attrs bits h1 h2 h3
  have hkeys : (buildCaseData cases).map (fun p => p.1) ≠ [] := by
    simpa using h1
  obtain ⟨x, hx⟩ := Option.isSome_iff_exists.mp (List.getLast?_isSome.mpr hkeys)
  unfold experimentInit
  by_cases hnc : nc == "" <;>
    simp [hnc, hx, h2, validateData_eq_find?, h3]

/-- Witness for C2 at a concrete design: of the four combinations enumerated
as F2000/comp, F2000/min_smax, F1850/comp, F1850/min_smax, only the first
exists, so the reported path is the second one. -/
theorem c2_witness :
    buildCaseData casesW ≠ [] ∧
    fsExists fsW "r" = true ∧
    (itProduct ((buildCaseData casesW).map (fun p => p.2.vals))).find?
        (fun b => !(fsExists fsW (joinPath "r" b))) = some ["F2000", "min_smax"] ∧
    experimentInit "exp" casesW "r" false "" true fsW [] =
      Except.error (InitError.dataLayout (joinPath "r" ["F2000", "min_smax"])) :=
  ⟨by decide, by decide, by decide,
    c2_first_missing.2 fsW "exp" casesW "r" false "" [] ["F2000", "min_smax"]
      (by decide) (by decide) (by decide)⟩

/-- C3 counterexample: two cases sharing the short name "a" do not raise; the
constructor returns a design in which the later case overwrote the earlier. -/
theorem c3_counterexample :
    experimentInit "e" [Case.make "a" "x" ["v1"], Case.make "a" "y" ["v2"]]
        "d" false "" false fsEmpty [] =
      Except.ok (⟨"e", [("a", Case.make "a" "y" ["v2"])], "d", "a", false⟩,
        [("a", ["v2"])]) := by
  rfl

/-- C3 (amended): constructing a design from two cases sharing a short name
succeeds — no `DuplicateCaseError` exists in the code; the second case's data
silently replaces the first's in the `OrderedDict` slot for that short name
(keeping the slot's position), and the class attribute ends up with the second
case's value list. -/
theorem c3_duplicate_overwrites (s l1 l2 : String) (v1 v2 : List String)
    (name d : String) (fs : FS) (attrs : ClassAttrs) :
    experimentInit name [Case.make s l1 v1, Case.make s l2 v2] d false "" false fs attrs =
      Except.ok (⟨name, [(s, Case.make s l2 v2)], d, s, false⟩, setAttr attrs s v2) := by
  simp [experimentInit, buildCaseData, odInsert, Case.make]

/-- C4 counterexample: the `Case` namedtuple constructor accepts an empty
values sequence — a `Case` with zero admissible values is created. -/
theorem c4_counterexample : (Case.make "a" "b" []).vals.length = 0 := rfl

/-- C4 (amended): `Case` is a bare namedtuple; construction performs no
validation at all and stores the (possibly empty) values verbatim — no
`InvalidCaseError` exists in the code. -/
theorem c4_case_no_validation (s l : String) (v : List String) :
    (Case.make s l v).vals = v ∧ (Case.make s l v).shortname = s ∧
    (Case.make s l v).longname = l :=
  ⟨rfl, rfl, rfl⟩

/-- C7: `SingleCaseExperiment` construction always succeeds with the data
directory stored unchanged, `case_path` ignores its arguments and returns
`data_dir` for any argument list, and construction never consults the
filesystem (validation is hard-wired off), so the result is identical for any
two filesystems. -/
theorem c7_single_case (name dataDir : String) (fp : Bool) (fs fs2 : FS)
    (attrs : ClassAttrs) (args : List String) :
    (∃ e a, singleCaseInit name dataDir fp fs attrs = Except.ok (e, a) ∧
      singleCase_case_path e args = dataDir) ∧
    singleCaseInit name dataDir fp fs attrs = singleCaseInit name dataDir fp fs2 attrs := by
  exact ⟨⟨_, _, rfl, rfl⟩, rfl⟩

/-- C8 counterexample: with `validate_data=False`, an experiment whose data
root does not exist on the (empty) filesystem is constructed successfully —
no error of any kind is raised. -/
theorem c8_counterexample :
    fsExists fsEmpty "d" = false ∧
    experimentInit "e" [Case.make "a" "a" ["x"]] "d" false "" false fsEmpty [] =
      Except.ok (⟨"e", [("a", Case.make "a" "a" ["x"])], "d", "a", false⟩,
        [("a", ["x"])]) :=
  ⟨rfl, rfl⟩

/-- C8 (amended): only when validation is requested does `__init__` assert
that the data root exists; in that case a missing root aborts construction
with the missing-directory error before any layout check. -/
theorem c8_missing_root (name : String) (cases : List Case) (dataDir : String)
    (fp : Bool) (nc : String) (fs : FS) (attrs : ClassAttrs)
    (h1 : buildCaseData cases ≠ []) (h2 : fsExists fs dataDir = false) :
    experimentInit name cases dataDir fp nc true fs attrs =
      Except.error InitError.missingDir := by
  have hkeys : (buildCaseData cases).map (fun p => p.1) ≠ [] := by
    simpa using h1
  obtain ⟨x, hx⟩ := Option.isSome_iff_exists.mp (List.getLast?_isSome.mpr hkeys)
  unfold experimentInit
  by_cases hnc : nc == "" <;> simp [hnc, hx, h2]

/-- Witness for C8: a one-case design over the empty filesystem with
validation requested. -/
theorem c8_witness :
    buildCaseData [Case.make "a" "a" ["x"]] ≠ [] ∧
    fsExists fsEmpty "d" = false ∧
    experimentInit "e" [Case.make "a" "a" ["x"]] "d" false "" true fsEmpty [] =
      Except.error InitError.missingDir :=
  ⟨by decide, rfl,
    c8_missing_root "e" [Case.make "a" "a" ["x"]] "d" false "" fsEmpty [] (by decide) rfl⟩

theorem find?_map_update (k : String) (v : List String) :
    ∀ (a : ClassAttrs), a.any (fun p => p.1 == k) = true →
      (a.map (fun p => if p.1 == k then (k, v) else p)).find? (fun p => p.1 == k) =
        some (k, v) := by
  intro a
  induction a with
  | nil => intro h; simp at h
  | cons p ps ih =>
    intro h
    by_cases hp : (p.1 == k) = true
    · simp only [List.map_cons, if_pos hp]
      exact List.find?_cons_of_pos _ (by simp)
    · simp only [List.map_cons, if_neg hp]
      refine (@List.find?_cons_of_neg _ (fun q => q.1 == k) p _ hp).trans (ih ?_)
      simp only [List.any_cons, Bool.or_eq_true] at h
      rcases h with h1 | h1
      · exact absurd h1 hp
      · exact h1

theorem find?_append_new (k : String) (v : List String) :
    ∀ (a : ClassAttrs), a.any (fun p => p.1 == k) = false →
      (a ++ [(k, v)]).find? (fun p => p.1 == k) = some (k, v) := by
  intro a
  induction a with
  | nil =>
    intro _
    rw [List.nil_append]
    exact List.find?_cons_of_pos _ (by simp)
  | cons p ps ih =>
    intro h
    simp only [List.any_cons, Bool.or_eq_false_iff] at h
    rw [List.cons_append]
    exact (@List.find?_cons_of_neg _ (fun q => q.1 == k) p _ (by simp [h.1])).trans (ih h.2)

theorem getAttr_setAttr_self (a : ClassAttrs) (k : String) (v : List String) :
    getAttr (setAttr a k v) k = some v := by
  unfold getAttr setAttr
  by_cases h : a.any (fun p => p.1 == k) = true
  · rw [if_pos h, find?_map_update k v a h]
    rfl
  · rw [if_neg h, find?_append_new k v a (Bool.eq_false_iff.mpr h)]
    rfl

/-- C10: `__init__` stores every case's value list with
`setattr(self.__class__, shortname, vals)` — on the class, not the instance.
Constructing a second experiment that reuses a short name overwrites the
class attribute the first experiment installed, so the value list observed
through that attribute after the second construction is the second
experiment's, no longer the first's. -/
theorem c10_class_attr_leak (v1 v2 : List String) (h : v1 ≠ v2)
    (attrs0 : ClassAttrs) (fs : FS) :
    ∃ e1 a1 e2 a2,
      experimentInit "exp1" [Case.make "aer" "one" v1] "d1" false "" false fs attrs0 =
        Except.ok (e1, a1) ∧
      getAttr a1 "aer" = some v1 ∧
      experimentInit "exp2" [Case.make "aer" "two" v2] "d2" false "" false fs a1 =
        Except.ok (e2, a2) ∧
      getAttr a2 "aer" = some v2 ∧ getAttr a2 "aer" ≠ some v1 := by
  refine ⟨_, setAttr attrs0 "aer" v1, _, setAttr (setAttr attrs0 "aer" v1) "aer" v2,
    rfl, getAttr_setAttr_self .., rfl, getAttr_setAttr_self .., ?_⟩
  rw [getAttr_setAttr_self]
  intro hc
  exact h (Option.some.inj hc).symm

/-- Witness for C10 with two concrete, distinct value lists. -/
theorem c10_witness :
    (["F2000"] : List String) ≠ ["F1850"] ∧
    (∃ e1 a1 e2 a2,
      experimentInit "exp1" [Case.make "aer" "one" ["F2000"]] "d1" false "" false
          fsEmpty [] = Except.ok (e1, a1) ∧
      getAttr a1 "aer" = some ["F2000"] ∧
      experimentInit "exp2" [Case.make "aer" "two" ["F1850"]] "d2" false "" false
          fsEmpty a1 = Except.ok (e2, a2) ∧
      getAttr a2 "aer" = some ["F1850"] ∧ getAttr a2 "aer" ≠ some ["F2000"]) :=
  ⟨by decide, c10_class_attr_leak ["F2000"] ["F1850"] (by decide) [] fsEmpty⟩

noncomputable section

/-- Earth's radius in meters: `R_EARTH = 6375000.` in `area_grid`. -/
def R_EARTH : ℝ := 6375000

/-- `arr[1:] - arr[:-1]`: the successive differences of a coordinate array. -/
def diffs (xs : List ℝ) : List ℝ := List.zipWith (fun a b => b - a) xs xs.tail

/-- `np.mean`: sum divided by length. On the empty list NumPy produces NaN;
here the division by zero yields zero — either way, not a raised error. -/
def listMean (xs : List ℝ) : ℝ := xs.sum / xs.length

/-- `np.abs(np.mean(arr[1:] - arr[:-1])) * np.pi / 180.`: the mean absolute
grid spacing in radians, used for both `dlon` and `dlat`. -/
def gridDelta (xs : List ℝ) : ℝ := |listMean (diffs xs)| * Real.pi / 180

/-- `theta = (90. - lat) * np.pi / 180.`: colatitude in radians. -/
def colat (lat : ℝ) : ℝ := (90 - lat) * Real.pi / 180

/-- The body of the double loop in `area_grid`: the polar-cap branch when the
colatitude is exactly 0 or pi, the banded formula otherwise. The longitude
index is never read. -/
def cellArea (dlat dlon θ : ℝ) : ℝ :=
  if θ = 0 ∨ θ = Real.pi then
    R_EARTH ^ 2 * |Real.cos (dlat / 2) - Real.cos 0| * dlon
  else
    R_EARTH ^ 2 * |Real.cos (θ - dlat / 2) - Real.cos (θ + dlat / 2)| * dlon

/-- The `(nlon, nlat)` array `areas` filled by the loops of `area_grid`
(before the final `areas.T`): one row per longitude sample, whose entries
depend only on the latitude index. -/
def areasLoop (lon lat : List ℝ) : List (List ℝ) :=
  lon.map (fun _ => lat.map (fun φ => cellArea (gridDelta lat) (gridDelta lon) (colat φ)))

/-- `np.sum(..., axis=0)` on a rectangular list-of-rows matrix. -/
def colSums : List (List ℝ) → List ℝ
  | [] => []
  | r :: rs => rs.foldl (fun acc row => List.zipWith (fun a b => a + b) acc row) r

/-- The per-latitude summed areas `aw` inside `latitude_weights`:
`area_grid(np.array([0., 360.]), lats)` is wrapped in a labeled array whose
data is `areas.T` of shape `(nlat, 2)` when that passes the `(2, nlat)`
shape check — exactly when `nlat = 2` — and is transposed back to `areas`
otherwise; `aw = areas.sum(axis=0)` then sums the stored data's first axis. -/
def awOf (lats : List ℝ) : List ℝ :=
  colSums (if lats.length = 2 then (areasLoop [0, 360] lats).transpose
    else areasLoop [0, 360] lats)

/-- `latitude_weights(lats)`: `weights = 2. * aw / np.sum(aw)`. -/
def latitude_weights (lats : List ℝ) : List ℝ :=
  (awOf lats).map (fun a => 2 * a / (awOf lats).sum)

/-- The total of all cell areas produced by `area_grid([0, 360], lats)`. -/
def totalCellArea (lats : List ℝ) : ℝ :=
  ((areasLoop [0, 360] lats).map List.sum).sum

/-- Entry `(i, j)` of a list-of-rows matrix. -/
def entry? (M : List (List ℝ)) (i j : Nat) : Option ℝ := M[i]?.bind (fun r => r[j]?)

/-- The cell-area formula exactly as the claim states it: colatitude
`θ = (90° − lat)` in radians, area `R_EARTH² · |cos(θ − Δlat/2) −
cos(θ + Δlat/2)| · Δlon`, degenerating to `R_EARTH² · |cos(Δlat/2) −
cos 0| · Δlon` when `θ = 0` or `θ = π`. -/
def claimCellArea (lon lat : List ℝ) (φ : ℝ) : ℝ :=
  if (90 - φ) * Real.pi / 180 = 0 ∨ (90 - φ) * Real.pi / 180 = Real.pi then
    R_EARTH ^ 2 * |Real.cos (gridDelta lat / 2) - Real.cos 0| * gridDelta lon
  else
    R_EARTH ^ 2 * |Real.cos ((90 - φ) * Real.pi / 180 - gridDelta lat / 2) -
      Real.cos ((90 - φ) * Real.pi / 180 + gridDelta lat / 2)| * gridDelta lon

end

theorem zipWith_add_self (l : List ℝ) :
    List.zipWith (fun a b => a + b) l l = l.map (fun x => x + x) := by
  induction l with
  | nil => rfl
  | cons x xs ih => simp [List.zipWith_cons_cons, ih]

theorem sum_map_add_self (l : List ℝ) : (l.map (fun x => x + x)).sum = 2 * l.sum := by
  induction l with
  | nil => simp
  | cons x xs ih => simp [ih]; ring

theorem sum_map_two_div (l : List ℝ) (s : ℝ) :
    (l.map (fun a => 2 * a / s)).sum = 2 * l.sum / s := by
  induction l with
  | nil => simp
  | cons x xs ih => simp [ih]; ring

theorem weights_core (aw : List ℝ) (h : aw.sum ≠ 0) :
    (aw.map (fun a => 2 * a / aw.sum)).sum = 2 := by
  rw [sum_map_two_div]
  field_simp

theorem awOf_pair (x y : ℝ) : awOf [x, y] =
    [cellArea (gridDelta [x, y]) (gridDelta [0, 360]) (colat x) +
      cellArea (gridDelta [x, y]) (gridDelta [0, 360]) (colat y),
     cellArea (gridDelta [x, y]) (gridDelta [0, 360]) (colat x) +
      cellArea (gridDelta [x, y]) (gridDelta [0, 360]) (colat y)] := rfl

theorem awOf_sum (lats : List ℝ) : (awOf lats).sum = totalCellArea lats := by
  by_cases hl : lats.length = 2
  · obtain ⟨x, y, rfl⟩ := List.length_eq_two.mp hl
    rw [awOf_pair]
    show _ = ((areasLoop [0, 360] [x, y]).map List.sum).sum
    simp only [areasLoop, List.map_cons, List.map_nil, List.sum_cons, List.sum_nil]
    ring
  · unfold awOf
    rw [if_neg hl]
    show (colSums [_, _]).sum = _
    unfold colSums totalCellArea areasLoop
    simp only [List.map_cons, List.map_nil, List.foldl, List.sum_cons, List.sum_nil]
    rw [zipWith_add_self, sum_map_add_self]
    ring

theorem awOf_length (lats : List ℝ) : (awOf lats).length = lats.length := by
  by_cases hl : lats.length = 2
  · obtain ⟨x, y, rfl⟩ := List.length_eq_two.mp hl
    rfl
  · unfold awOf
    rw [if_neg hl]
    show (colSums [_, _]).length = _
    unfold colSums
    simp [List.foldl]

/-- C5 counterexample: two identical latitudes give zero mean spacing, hence
every cell area is zero and `np.sum(aw)` is zero; the division `2·aw/0` does
not produce weights summing to 2 (NaN in IEEE arithmetic, zero here), although
the input is a perfectly non-empty latitude list. -/
theorem c5_counterexample : (latitude_weights [45, 45]).sum ≠ 2 := by
  have hd : gridDelta [(45 : ℝ), 45] = 0 := by
    simp [gridDelta, diffs, listMean]
  have hz : cellArea (gridDelta [(45 : ℝ), 45]) (gridDelta [0, 360]) (colat 45) = 0 := by
    rw [hd]
    unfold cellArea
    split <;> simp
  have hw : awOf [(45 : ℝ), 45] = [0, 0] := by
    rw [awOf_pair, hz]
    norm_num
  unfold latitude_weights
  rw [hw]
  norm_num

/-- C5 (amended): whenever the total computed cell area is nonzero — which
requires at least two latitude samples with nonzero mean spacing — the
returned weights number one per latitude and sum to exactly 2; for degenerate
input (single latitude or zero mean spacing) the normalization divides by
zero and the unconditional claim fails. -/
theorem c5_weights_sum (lats : List ℝ) (_h1 : lats ≠ [])
    (h2 : totalCellArea lats ≠ 0) :
    (latitude_weights lats).sum = 2 ∧ (latitude_weights lats).length = lats.length := by
  constructor
  · exact weights_core (awOf lats) (by rw [awOf_sum]; exact h2)
  · show ((awOf lats).map _).length = _
    rw [List.length_map, awOf_length]

/-- Witness for C5 at the latitudes 45° and 135°: both cell areas evaluate to
`R_EARTH² · 2π`, the total is positive, and the weights sum to 2. -/
theorem c5_witness :
    ([45, 135] : List ℝ) ≠ [] ∧ totalCellArea [45, 135] ≠ 0 ∧
    ((latitude_weights [45, 135]).sum = 2 ∧
      (latitude_weights [45, 135]).length = ([45, 135] : List ℝ).length) := by
  have hdlat : gridDelta [(45 : ℝ), 135] = Real.pi / 2 := by
    have hm : listMean (diffs [(45 : ℝ), 135]) = 90 := by
      simp [diffs, listMean]
      norm_num
    unfold gridDelta
    rw [hm, show |(90 : ℝ)| = 90 from abs_of_nonneg (by norm_num)]
    ring
  have hdlon : gridDelta [(0 : ℝ), 360] = 2 * Real.pi := by
    have hm : listMean (diffs [(0 : ℝ), 360]) = 360 := by
      simp [diffs, listMean]
    unfold gridDelta
    rw [hm, show |(360 : ℝ)| = 360 from abs_of_nonneg (by norm_num)]
    ring
  have hcx : colat 45 = Real.pi / 4 := by
    unfold colat
    ring
  have hcy : colat 135 = -(Real.pi / 4) := by
    unfold colat
    ring
  have hx4 : ¬(Real.pi / 4 = 0 ∨ Real.pi / 4 = Real.pi) := by
    have hp := Real.pi_pos
    rintro (h | h)
    · linarith
    · linarith
  have hy4 : ¬(-(Real.pi / 4) = 0 ∨ -(Real.pi / 4) = Real.pi) := by
    have hp := Real.pi_pos
    rintro (h | h)
    · linarith
    · linarith
  have ha : cellArea (Real.pi / 2) (2 * Real.pi) (Real.pi / 4) =
      R_EARTH ^ 2 * (2 * Real.pi) := by
    unfold cellArea
    rw [if_neg hx4, show Real.pi / 4 - Real.pi / 2 / 2 = 0 by ring,
      show Real.pi / 4 + Real.pi / 2 / 2 = Real.pi / 2 by ring,
      Real.cos_zero, Real.cos_pi_div_two]
    norm_num
  have hb : cellArea (Real.pi / 2) (2 * Real.pi) (-(Real.pi / 4)) =
      R_EARTH ^ 2 * (2 * Real.pi) := by
    unfold cellArea
    rw [if_neg hy4, show -(Real.pi / 4) - Real.pi / 2 / 2 = -(Real.pi / 2) by ring,
      show -(Real.pi / 4) + Real.pi / 2 / 2 = 0 by ring,
      Real.cos_neg, Real.cos_zero, Real.cos_pi_div_two]
    norm_num
  have h2 : totalCellArea [(45 : ℝ), 135] ≠ 0 := by
    unfold totalCellArea areasLoop
    simp only [List.map_cons, List.map_nil, List.sum_cons, List.sum_nil]
    rw [hdlat, hdlon, hcx, hcy, ha, hb]
    intro h0
    have hp := Real.pi_pos
    have hR : (0 : ℝ) < R_EARTH ^ 2 := by norm_num [R_EARTH]
    nlinarith
  exact ⟨by simp, h2, c5_weights_sum [45, 135] (by simp) h2⟩

/-- C6: every entry of the areas array produced by the `area_grid` loops
equals the claimed colatitude band/cap formula evaluated at that entry's
latitude, and all longitude indices at a given latitude hold the identical
value. -/
theorem c6_area_formula (lon lat : List ℝ) (i j : Nat)
    (hi : i < lon.length) (hj : j < lat.length) :
    entry? (areasLoop lon lat) i j = some (claimCellArea lon lat lat[j]) ∧
    ∀ i2, i2 < lon.length →
      entry? (areasLoop lon lat) i2 j = entry? (areasLoop lon lat) i j := by
  have key : ∀ i2, i2 < lon.length →
      entry? (areasLoop lon lat) i2 j = some (claimCellArea lon lat lat[j]) := by
    intro i2 hi2
    unfold entry? areasLoop
    rw [List.getElem?_map, List.getElem?_eq_getElem hi2]
    show ((lat.map fun φ => cellArea (gridDelta lat) (gridDelta lon) (colat φ))[j]?) = _
    rw [List.getElem?_map, List.getElem?_eq_getElem hj]
    rfl
  exact ⟨key i hi, fun i2 hi2 => (key i2 hi2).trans (key i hi).symm⟩

/-- Witness for C6 on the 2×1 grid with longitudes 0°, 360° and latitude 45°. -/
theorem c6_witness :
    0 < ([(0 : ℝ), 360]).length ∧ 0 < ([(45 : ℝ)]).length ∧
    (entry? (areasLoop [0, 360] [45]) 0 0 = some (claimCellArea [0, 360] [45] 45) ∧
      ∀ i2, i2 < ([(0 : ℝ), 360]).length →
        entry? (areasLoop [0, 360] [45]) i2 0 = entry? (areasLoop [0, 360] [45]) 0 0) :=
  ⟨by decide, by decide, c6_area_formula [0, 360] [45] 0 0 (by decide) (by decide)⟩

/-- C9 counterexample: called on an empty latitude array, `latitude_weights`
raises nothing — it silently returns an empty weights array (the intermediate
mean spacing being NaN in IEEE arithmetic); there is no `InvalidInputError`
guard anywhere in the numeric routines. -/
theorem c9_counterexample : latitude_weights [] = [] := rfl

/-- C9 (amended): the numeric routines perform no input validation and raise
no errors at all — they are total: empty coordinate input flows through and
yields degenerate (empty) output rather than a failure, and every input
yields one area row per longitude and one weight per latitude. -/
theorem c9_no_input_guard :
    (∀ lon lat : List ℝ, (areasLoop lon lat).length = lon.length) ∧
    (∀ lats : List ℝ, (latitude_weights lats).length = lats.length) ∧
    areasLoop [] [] = [] := by
  refine ⟨fun lon lat => by simp [areasLoop], fun lats => ?_, rfl⟩
  show ((awOf lats).map _).length = _
  rw [List.length_map, awOf_length]

end Darpy
